import Mathlib

/-!
Verification of the MtG card-classifier core (image normalization, batch
ingestion, identification-key derivation, catalog reconciliation), shallowly
embedded from `src/Vector_Database_Setup.ipynb`.
-/

namespace MtG

/-! ## Image data model and `resize_with_padding` -/

/-- A raw image: height `h`, width `w`, 3 channels, pixel lookup
(row, column, channel) → 8-bit sample value. -/
structure Img where
  h : ℕ
  w : ℕ
  pix : ℕ → ℕ → Fin 3 → ℕ

/-- The geometry of a successful `cv2.resize` call: an arbitrary pixel
lookup on the requested `new_w × new_h` geometry (the interpolation contents
are irrelevant to the geometric claims). It is consulted only when both
requested dimensions are nonzero; `cv2.resize` with an empty `dsize`
RAISES, which `resize_with_padding` models separately below. -/
def ResizeFn : Type := Img → ℕ → ℕ → (ℕ → ℕ → Fin 3 → ℕ)

/-- The error raised out of `resize_with_padding`:
`cv2.resize(img, (new_w, new_h))` fails its `inv_scale` assertion when
`new_w = 0` or `new_h = 0` (empty `dsize`). -/
inductive ImgErr where
  | emptyResize
deriving DecidableEq

/-- The computed content width `new_w = int(w * scale)` of
`resize_with_padding`, with `scale = min(target_size/h, target_size/w)`
(exact rational arithmetic; `int` truncation = floor on non-negatives). -/
def newW (img : Img) (target_size : ℕ) : ℕ :=
  (⌊(img.w : ℚ) * min ((target_size : ℚ) / img.h) ((target_size : ℚ) / img.w)⌋).toNat

/-- The computed content height `new_h = int(h * scale)` of
`resize_with_padding`. -/
def newH (img : Img) (target_size : ℕ) : ℕ :=
  (⌊(img.h : ℚ) * min ((target_size : ℚ) / img.h) ((target_size : ℚ) / img.w)⌋).toNat

/-- The horizontal padding offset `pad_w = (target_size - new_w) // 2`. -/
def padW (img : Img) (target_size : ℕ) : ℕ := (target_size - newW img target_size) / 2

/-- The vertical padding offset `pad_h = (target_size - new_h) // 2`. -/
def padH (img : Img) (target_size : ℕ) : ℕ := (target_size - newH img target_size) / 2

/-- The canvas built after a successful resize: `target_size × target_size`
filled with 255, the resized content copied at offset `(pad_h, pad_w)`. -/
def paddedCanvas (resize : ResizeFn) (img : Img) (target_size : ℕ) : Img :=
  { h := target_size
    w := target_size
    pix := fun i j c =>
      if padH img target_size ≤ i ∧ i < padH img target_size + newH img target_size ∧
          padW img target_size ≤ j ∧ j < padW img target_size + newW img target_size then
        resize img (newW img target_size) (newH img target_size)
          (i - padH img target_size) (j - padW img target_size) c
      else 255 }

/-- Embedding of `resize_with_padding(img, target_size)`: compute
`scale = min(target_size / h, target_size / w)`, `new_w = int(w * scale)`,
`new_h = int(h * scale)`; `cv2.resize(img, (new_w, new_h))` raises when
either dimension is 0 (the function returns nothing then); otherwise
allocate the 255-filled canvas and copy the content at `(pad_h, pad_w)`. -/
def resize_with_padding (resize : ResizeFn) (img : Img) (target_size : ℕ) :
    Except ImgErr Img :=
  if newW img target_size = 0 ∨ newH img target_size = 0 then
    Except.error ImgErr.emptyResize
  else
    Except.ok (paddedCanvas resize img target_size)

lemma paddedCanvas_pix (resize : ResizeFn) (img : Img) (S i j : ℕ) (c : Fin 3) :
    (paddedCanvas resize img S).pix i j c =
      if padH img S ≤ i ∧ i < padH img S + newH img S ∧
          padW img S ≤ j ∧ j < padW img S + newW img S then
        resize img (newW img S) (newH img S) (i - padH img S) (j - padW img S) c
      else 255 := rfl

lemma newH_le (img : Img) (S : ℕ) (hh : 1 ≤ img.h) : newH img S ≤ S := by
  have hhpos : (0 : ℚ) < (img.h : ℚ) := by exact_mod_cast hh
  have hle : (img.h : ℚ) * min ((S : ℚ) / img.h) ((S : ℚ) / img.w) ≤ S := by
    calc (img.h : ℚ) * min ((S : ℚ) / img.h) ((S : ℚ) / img.w)
        ≤ (img.h : ℚ) * ((S : ℚ) / img.h) := by
          apply mul_le_mul_of_nonneg_left (min_le_left _ _) (le_of_lt hhpos)
      _ = S := by field_simp
  have := Int.floor_le_floor hle
  rw [Int.floor_natCast] at this
  unfold newH
  omega

lemma newW_le (img : Img) (S : ℕ) (hw : 1 ≤ img.w) : newW img S ≤ S := by
  have hwpos : (0 : ℚ) < (img.w : ℚ) := by exact_mod_cast hw
  have hle : (img.w : ℚ) * min ((S : ℚ) / img.h) ((S : ℚ) / img.w) ≤ S := by
    calc (img.w : ℚ) * min ((S : ℚ) / img.h) ((S : ℚ) / img.w)
        ≤ (img.w : ℚ) * ((S : ℚ) / img.w) := by
          apply mul_le_mul_of_nonneg_left (min_le_right _ _) (le_of_lt hwpos)
      _ = S := by field_simp
  have := Int.floor_le_floor hle
  rw [Int.floor_natCast] at this
  unfold newW
  omega

/-- A concrete 2×3 test image (all-zero pixels). -/
def img0 : Img := ⟨2, 3, fun _ _ _ => 0⟩

/-- A concrete 1×300 test image: an extreme aspect ratio for which the
computed content height collapses to 0. -/
def img1x300 : Img := ⟨1, 300, fun _ _ _ => 0⟩

/-- A concrete stand-in for a successful `cv2.resize` (constant pixels). -/
def resize0 : ResizeFn := fun _ _ _ _ _ _ => 7

/-- Counterexample to C1: the 1×300 image at target size 224 satisfies the
claim's H≥1, W≥1, S≥1, yet `new_h = int(1 * min(224/1, 224/300)) = 0` and
`cv2.resize(img, (224, 0))` raises, so the program does not return an
S×S×3 canvas on this input. -/
theorem C1_counterexample_degenerate_aspect :
    1 ≤ img1x300.h ∧ 1 ≤ img1x300.w ∧ 1 ≤ 224 ∧
      resize_with_padding resize0 img1x300 224 =
        Except.error ImgErr.emptyResize := by
  have hH : newH img1x300 224 = 0 := by
    unfold newH img1x300
    norm_num [min_def]
  refine ⟨by decide, by decide, by decide, ?_⟩
  unfold resize_with_padding
  rw [if_pos (Or.inr hH)]

/-- C1 (amended): for every input image with H≥1, W≥1 (3 channels by type)
and target size S≥1 such that the computed content dimensions
`newW = ⌊W·scale⌋` and `newH = ⌊H·scale⌋` are both nonzero (otherwise
`cv2.resize` raises on the empty size and no canvas is returned),
`resize_with_padding` returns an S×S canvas whose content is the resize to
`(newW, newH)`, copied at offset `(padH, padW)` with `padW = (S-newW)/2`,
`padH = (S-newH)/2`; every pixel outside the content rectangle is 255 and
the content rectangle fits inside the canvas (no cropping). -/
theorem C1_resize_with_padding_geometry (resize : ResizeFn) (img : Img) (S : ℕ)
    (hh : 1 ≤ img.h) (hw : 1 ≤ img.w) (hS : 1 ≤ S)
    (hnw1 : 1 ≤ newW img S) (hnh1 : 1 ≤ newH img S) :
    resize_with_padding resize img S = Except.ok (paddedCanvas resize img S) ∧
    (paddedCanvas resize img S).h = S ∧
    (paddedCanvas resize img S).w = S ∧
    padH img S + newH img S ≤ S ∧ padW img S + newW img S ≤ S ∧
    (∀ i j c, (padH img S ≤ i ∧ i < padH img S + newH img S ∧
        padW img S ≤ j ∧ j < padW img S + newW img S) →
        (paddedCanvas resize img S).pix i j c =
          resize img (newW img S) (newH img S) (i - padH img S) (j - padW img S) c) ∧
    (∀ i j c, ¬ (padH img S ≤ i ∧ i < padH img S + newH img S ∧
        padW img S ≤ j ∧ j < padW img S + newW img S) →
        (paddedCanvas resize img S).pix i j c = 255) := by
  have hnh : newH img S ≤ S := newH_le img S hh
  have hnw : newW img S ≤ S := newW_le img S hw
  refine ⟨?_, rfl, rfl, ?_, ?_, ?_, ?_⟩
  · unfold resize_with_padding
    rw [if_neg]
    omega
  · unfold padH; omega
  · unfold padW; omega
  · intro i j c hin
    rw [paddedCanvas_pix, if_pos hin]
  · intro i j c hout
    rw [paddedCanvas_pix, if_neg hout]

/-- Witness for the amended C1 at the 2×3 image and target size 4
(`newW = 4`, `newH = 2`, `padH = 1`, `padW = 0`). -/
theorem C1_resize_with_padding_geometry_witness :
    1 ≤ img0.h ∧ 1 ≤ img0.w ∧ 1 ≤ 4 ∧ 1 ≤ newW img0 4 ∧ 1 ≤ newH img0 4 ∧
      resize_with_padding resize0 img0 4 = Except.ok (paddedCanvas resize0 img0 4) ∧
      (paddedCanvas resize0 img0 4).h = 4 ∧
      (paddedCanvas resize0 img0 4).pix 0 0 0 = 255 := by
  have hH : newH img0 4 = 2 := by
    unfold newH img0
    norm_num [min_def]
    decide
  have hW : newW img0 4 = 4 := by
    unfold newW img0
    norm_num [min_def]
    decide
  obtain ⟨h0, h1, _, _, _, _, h6⟩ :=
    C1_resize_with_padding_geometry resize0 img0 4 (by decide) (by decide) (by decide)
      (by omega) (by omega)
  refine ⟨by decide, by decide, by decide, by omega, by omega, h0, h1, h6 0 0 0 ?_⟩
  have hp : padH img0 4 = 1 := by
    unfold padH
    omega
  omega

/-! ## Batch ingestion: data model and `batch_upsert_embeddings` -/

/-- One directory entry at ingestion time: its filename and the result of the
`embed_image` attempt (`none` models a decode or embedding-service failure,
which `batch_upsert_embeddings` catches per item). -/
structure Entry where
  name : String
  embed : Option (List ℚ)
deriving DecidableEq

/-- One vector handed to `index.upsert`: `{"id": img_name, "values": embedding}`. -/
structure Item where
  id : String
  values : List ℚ
deriving DecidableEq

/-- The observable state of one `batch_upsert_embeddings` run: the in-memory
buffer, the list of upsert calls made so far (each call is the exact list of
items it carried, whether or not the call succeeded), the recorded per-item
failures, and whether an exception escaped the function (only possible at the
final, untried flush). -/
structure IngestState where
  batch : List Item
  calls : List (List Item)
  failures : List String
  raised : Bool
deriving DecidableEq

/-- The initial ingestion state: `batch = []`, nothing sent, no failures. -/
def initState : IngestState := ⟨[], [], [], false⟩

/-- One iteration of the `for img_name in os.listdir(image_dir)` loop.
`upsertOk n` tells whether the (n+1)-st upsert call the run makes succeeds
(the external index is a black box; `n` counts calls already made).
On embed failure the exception is caught and the name recorded. On success the
item is appended; if the buffer has reached `batch_size` an upsert call is
made: on success the buffer is cleared, on failure the exception is caught by
the same `except`, the failure is recorded under the current entry's name, and
the buffer is NOT cleared (the `batch.clear()` line is skipped). -/
def processEntry (batch_size : ℕ) (upsertOk : ℕ → Bool) (st : IngestState)
    (e : Entry) : IngestState :=
  match e.embed with
  | none => { st with failures := st.failures ++ [e.name] }
  | some v =>
    let batch' := st.batch ++ [⟨e.name, v⟩]
    if batch_size ≤ batch'.length then
      if upsertOk st.calls.length then
        { st with batch := [], calls := st.calls ++ [batch'] }
      else
        { st with batch := batch', calls := st.calls ++ [batch'],
                  failures := st.failures ++ [e.name] }
    else { st with batch := batch' }

/-- The trailing `if batch:` block of `batch_upsert_embeddings`: flush any
remaining buffer. This final `index.upsert` is outside the `try`, so its
failure raises out of the function (recorded as `raised`). -/
def finalFlush (upsertOk : ℕ → Bool) (st : IngestState) : IngestState :=
  if st.batch.isEmpty then st
  else if upsertOk st.calls.length then
    { st with batch := [], calls := st.calls ++ [st.batch] }
  else
    { st with calls := st.calls ++ [st.batch], raised := true }

/-- Embedding of `batch_upsert_embeddings(image_dir, batch_size, namespace)`:
fold the loop body over the directory listing, then flush the final partial
batch. -/
def batch_upsert_embeddings (upsertOk : ℕ → Bool) (entries : List Entry)
    (batch_size : ℕ) : IngestState :=
  finalFlush upsertOk (entries.foldl (processEntry batch_size upsertOk) initState)

/-- The items of the entries that embedded successfully, in listing order. -/
def successItems (entries : List Entry) : List Item :=
  entries.filterMap (fun e => e.embed.map (fun v => ⟨e.name, v⟩))

/-- Total number of items carried by the upsert calls of a state. -/
def totalUpserted (st : IngestState) : ℕ := (st.calls.map List.length).sum

/-- The names of the entries whose embedding attempt failed, in listing order. -/
def failNames (entries : List Entry) : List String :=
  entries.filterMap (fun e => match e.embed with | none => some e.name | some _ => none)

/-- An upsert oracle under which every call succeeds (the nominal run). -/
def upsertAllOk : ℕ → Bool := fun _ => true

lemma processEntry_none (B : ℕ) (u : ℕ → Bool) (st : IngestState) (e : Entry)
    (he : e.embed = none) :
    processEntry B u st e = { st with failures := st.failures ++ [e.name] } := by
  simp [processEntry, he]

lemma processEntry_flush (B : ℕ) (u : ℕ → Bool) (st : IngestState) (e : Entry)
    (v : List ℚ) (he : e.embed = some v) (hlen : B ≤ st.batch.length + 1)
    (hcall : u st.calls.length = true) :
    processEntry B u st e =
      { st with batch := [],
                calls := st.calls ++ [st.batch ++ [Item.mk e.name v]] } := by
  simp [processEntry, he, hlen, hcall]

lemma processEntry_flushfail (B : ℕ) (u : ℕ → Bool) (st : IngestState) (e : Entry)
    (v : List ℚ) (he : e.embed = some v) (hlen : B ≤ st.batch.length + 1)
    (hcall : u st.calls.length = false) :
    processEntry B u st e =
      { st with batch := st.batch ++ [Item.mk e.name v],
                calls := st.calls ++ [st.batch ++ [Item.mk e.name v]],
                failures := st.failures ++ [e.name] } := by
  simp [processEntry, he, hlen, hcall]

lemma processEntry_noflush (B : ℕ) (u : ℕ → Bool) (st : IngestState) (e : Entry)
    (v : List ℚ) (he : e.embed = some v) (hlen : ¬ B ≤ st.batch.length + 1) :
    processEntry B u st e = { st with batch := st.batch ++ [Item.mk e.name v] } := by
  simp [processEntry, he, hlen]

lemma foldl_join_batch (B : ℕ) (upsertOk : ℕ → Bool) (hok : ∀ n, upsertOk n = true)
    (es : List Entry) : ∀ st : IngestState,
    (es.foldl (processEntry B upsertOk) st).calls.flatten ++
        (es.foldl (processEntry B upsertOk) st).batch =
      st.calls.flatten ++ (st.batch ++ successItems es) := by
  induction es with
  | nil => intro st; simp [successItems]
  | cons e es ih =>
    intro st
    rw [List.foldl_cons]
    cases he : e.embed with
    | none =>
      rw [processEntry_none B upsertOk st e he, ih]
      simp [successItems, he]
    | some v =>
      by_cases hlen : B ≤ st.batch.length + 1
      · rw [processEntry_flush B upsertOk st e v he hlen (hok _), ih]
        simp [successItems, he, List.filterMap_cons]
      · rw [processEntry_noflush B upsertOk st e v he hlen, ih]
        simp [successItems, he, List.filterMap_cons]

lemma foldl_failures (B : ℕ) (upsertOk : ℕ → Bool) (hok : ∀ n, upsertOk n = true)
    (es : List Entry) : ∀ st : IngestState,
    (es.foldl (processEntry B upsertOk) st).failures = st.failures ++ failNames es := by
  induction es with
  | nil => intro st; simp [failNames]
  | cons e es ih =>
    intro st
    rw [List.foldl_cons]
    cases he : e.embed with
    | none =>
      rw [processEntry_none B upsertOk st e he, ih]
      simp [failNames, List.filterMap_cons, he]
    | some v =>
      by_cases hlen : B ≤ st.batch.length + 1
      · rw [processEntry_flush B upsertOk st e v he hlen (hok _), ih]
        simp [failNames, List.filterMap_cons, he]
      · rw [processEntry_noflush B upsertOk st e v he hlen, ih]
        simp [failNames, List.filterMap_cons, he]

lemma foldl_raised (B : ℕ) (upsertOk : ℕ → Bool) (es : List Entry) :
    ∀ st : IngestState,
    (es.foldl (processEntry B upsertOk) st).raised = st.raised := by
  induction es with
  | nil => intro st; rfl
  | cons e es ih =>
    intro st
    rw [List.foldl_cons]
    cases he : e.embed with
    | none =>
      rw [processEntry_none B upsertOk st e he, ih]
    | some v =>
      by_cases hlen : B ≤ st.batch.length + 1
      · cases hcall : upsertOk st.calls.length with
        | true => rw [processEntry_flush B upsertOk st e v he hlen hcall, ih]
        | false => rw [processEntry_flushfail B upsertOk st e v he hlen hcall, ih]
      · rw [processEntry_noflush B upsertOk st e v he hlen, ih]

lemma foldl_call_lengths (B : ℕ) (upsertOk : ℕ → Bool) (hok : ∀ n, upsertOk n = true)
    (hB : 1 ≤ B) (es : List Entry) : ∀ st : IngestState,
    st.batch.length < B → (∀ c ∈ st.calls, c.length = B) →
    (es.foldl (processEntry B upsertOk) st).batch.length < B ∧
      (∀ c ∈ (es.foldl (processEntry B upsertOk) st).calls, c.length = B) := by
  induction es with
  | nil => intro st h1 h2; exact ⟨h1, h2⟩
  | cons e es ih =>
    intro st h1 h2
    rw [List.foldl_cons]
    cases he : e.embed with
    | none =>
      rw [processEntry_none B upsertOk st e he]
      exact ih _ h1 h2
    | some v =>
      by_cases hlen : B ≤ st.batch.length + 1
      · rw [processEntry_flush B upsertOk st e v he hlen (hok _)]
        apply ih
        · simpa using hB
        · intro c hc
          rcases List.mem_append.1 hc with h | h
          · exact h2 c h
          · have hc' : c = st.batch ++ [Item.mk e.name v] := by simpa using h
            subst hc'
            simp
            omega
      · rw [processEntry_noflush B upsertOk st e v he hlen]
        apply ih
        · simp
          omega
        · exact h2

lemma initState_foldl_join (B : ℕ) (upsertOk : ℕ → Bool)
    (hok : ∀ n, upsertOk n = true) (es : List Entry) :
    (es.foldl (processEntry B upsertOk) initState).calls.flatten ++
        (es.foldl (processEntry B upsertOk) initState).batch = successItems es := by
  have h := foldl_join_batch B upsertOk hok es initState
  simpa [initState] using h

/-- After a nominal run (all upserts succeed), the concatenation of the upsert
calls is exactly the list of successfully embedded items, in order. -/
lemma run_flatten (upsertOk : ℕ → Bool) (hok : ∀ n, upsertOk n = true)
    (es : List Entry) (B : ℕ) :
    (batch_upsert_embeddings upsertOk es B).calls.flatten = successItems es := by
  have h := initState_foldl_join B upsertOk hok es
  unfold batch_upsert_embeddings finalFlush
  by_cases hb : (es.foldl (processEntry B upsertOk) initState).batch.isEmpty
  · simp only [hb, if_true]
    rw [List.isEmpty_iff] at hb
    rw [hb] at h
    simpa using h
  · simp only [hb, if_false, hok, if_true]
    simpa using h

lemma run_failures (upsertOk : ℕ → Bool) (hok : ∀ n, upsertOk n = true)
    (es : List Entry) (B : ℕ) :
    (batch_upsert_embeddings upsertOk es B).failures = failNames es := by
  have h := foldl_failures B upsertOk hok es initState
  simp only [initState] at h
  unfold batch_upsert_embeddings finalFlush
  by_cases hb : (es.foldl (processEntry B upsertOk) initState).batch.isEmpty
  · simp only [hb, if_true]
    simpa [initState] using h
  · simp only [hb, if_false, hok, if_true]
    simpa [initState] using h

lemma run_raised (upsertOk : ℕ → Bool) (hok : ∀ n, upsertOk n = true)
    (es : List Entry) (B : ℕ) :
    (batch_upsert_embeddings upsertOk es B).raised = false := by
  have h := foldl_raised B upsertOk es initState
  unfold batch_upsert_embeddings finalFlush
  by_cases hb : (es.foldl (processEntry B upsertOk) initState).batch.isEmpty
  · simp only [hb, if_true]
    simpa [initState] using h
  · simp only [hb, if_false, hok, if_true]
    simpa [initState] using h

lemma successItems_length (es : List Entry) (hall : ∀ e ∈ es, e.embed.isSome) :
    (successItems es).length = es.length := by
  induction es with
  | nil => rfl
  | cons e es ih =>
    have he := hall e (List.mem_cons_self e es)
    rw [Option.isSome_iff_exists] at he
    obtain ⟨v, hv⟩ := he
    simp [successItems, List.filterMap_cons, hv]
    have := ih (fun x hx => hall x (List.mem_cons_of_mem e hx))
    simpa [successItems] using this

lemma flatten_length_of_const (L : List (List Item)) (B : ℕ)
    (h : ∀ c ∈ L, c.length = B) : L.flatten.length = B * L.length := by
  induction L with
  | nil => simp
  | cons c L ih =>
    simp only [List.flatten_cons, List.length_append, List.length_cons]
    rw [h c (List.mem_cons_self c L), ih (fun x hx => h x (List.mem_cons_of_mem c hx))]
    ring

lemma ceil_div_eq (N B : ℕ) (hB : 1 ≤ B) :
    (N + B - 1) / B = N / B + (if N % B = 0 then 0 else 1) := by
  have h0 : 0 < B := hB
  have hdm := Nat.div_add_mod N B
  by_cases hr : N % B = 0
  · rw [if_pos hr]
    have h1 : N + B - 1 = B * (N / B) + (B - 1) := by omega
    have h2 : (B - 1) / B = 0 := Nat.div_eq_of_lt (by omega)
    rw [h1, Nat.mul_add_div h0, h2]
  · rw [if_neg hr]
    have h1 : N + B - 1 = B * (N / B + 1) + (N % B - 1) := by
      rw [Nat.mul_succ]
      omega
    have h2 : (N % B - 1) / B = 0 := by
      apply Nat.div_eq_of_lt
      have := Nat.mod_lt N h0
      omega
    rw [h1, Nat.mul_add_div h0, h2]

/-- The foldl part of a nominal all-successful run: `⌊N/B⌋` full calls of
exactly `B` items each, and `N % B` items left in the buffer. -/
lemma foldl_counts (upsertOk : ℕ → Bool) (hok : ∀ n, upsertOk n = true)
    (es : List Entry) (B : ℕ) (hB : 1 ≤ B) (hall : ∀ e ∈ es, e.embed.isSome) :
    (es.foldl (processEntry B upsertOk) initState).calls.length = es.length / B ∧
    (∀ c ∈ (es.foldl (processEntry B upsertOk) initState).calls, c.length = B) ∧
    (es.foldl (processEntry B upsertOk) initState).batch.length = es.length % B := by
  have hjoin := initState_foldl_join B upsertOk hok es
  have hlen := foldl_call_lengths B upsertOk hok hB es initState
    (by simp [initState]; omega) (by simp [initState])
  obtain ⟨hbl, hcl⟩ := hlen
  have hsl : (successItems es).length = es.length := successItems_length es hall
  have hflat : (es.foldl (processEntry B upsertOk) initState).calls.flatten.length =
      B * (es.foldl (processEntry B upsertOk) initState).calls.length :=
    flatten_length_of_const _ B hcl
  have heq : B * (es.foldl (processEntry B upsertOk) initState).calls.length +
      (es.foldl (processEntry B upsertOk) initState).batch.length = es.length := by
    have := congrArg List.length hjoin
    simp only [List.length_append] at this
    rw [hflat] at this
    omega
  have h1 : (es.foldl (processEntry B upsertOk) initState).batch.length +
      B * (es.foldl (processEntry B upsertOk) initState).calls.length = es.length := by
    omega
  have hdm := (Nat.div_mod_unique hB).2 ⟨h1, hbl⟩
  exact ⟨hdm.1.symm, hcl, hdm.2.symm⟩

lemma mem_of_getLast_eq {α : Type} {l : List α} {a : α} (h : l.getLast? = some a) :
    a ∈ l := by
  obtain ⟨hne, heq⟩ := List.mem_getLast?_eq_getLast (show a ∈ l.getLast? from h)
  rw [heq]
  exact List.getLast_mem hne

lemma run_calls_eq (upsertOk : ℕ → Bool) (hok : ∀ n, upsertOk n = true)
    (es : List Entry) (B : ℕ) :
    (batch_upsert_embeddings upsertOk es B).calls =
      if (es.foldl (processEntry B upsertOk) initState).batch.isEmpty then
        (es.foldl (processEntry B upsertOk) initState).calls
      else
        (es.foldl (processEntry B upsertOk) initState).calls ++
          [(es.foldl (processEntry B upsertOk) initState).batch] := by
  unfold batch_upsert_embeddings finalFlush
  by_cases hb : (es.foldl (processEntry B upsertOk) initState).batch.isEmpty
  · simp [hb]
  · simp [hb, hok]

/-- C2: in a batch-ingestion run over `N` entries that all embed successfully
(and whose upsert calls all succeed, the nominal protocol the claim
describes), exactly `⌈N/B⌉ = (N+B-1)/B` upsert calls are made; every call
other than the last carries exactly `B` items, and the last call carries
`N mod B` items when `B` does not divide `N` and `B` items when it does. -/
theorem C2_batch_upsert_call_counts (upsertOk : ℕ → Bool) (es : List Entry)
    (B : ℕ) (hB : 1 ≤ B) (hok : ∀ n, upsertOk n = true)
    (hall : ∀ e ∈ es, e.embed.isSome) :
    (batch_upsert_embeddings upsertOk es B).calls.length = (es.length + B - 1) / B ∧
    (∀ c ∈ (batch_upsert_embeddings upsertOk es B).calls.dropLast, c.length = B) ∧
    (∀ c, (batch_upsert_embeddings upsertOk es B).calls.getLast? = some c →
      c.length = if es.length % B = 0 then B else es.length % B) := by
  obtain ⟨hk, hcl, hr⟩ := foldl_counts upsertOk hok es B hB hall
  have hcalls := run_calls_eq upsertOk hok es B
  rw [ceil_div_eq es.length B hB]
  by_cases hb : (es.foldl (processEntry B upsertOk) initState).batch.isEmpty
  · rw [if_pos hb] at hcalls
    have hr0 : es.length % B = 0 := by
      rw [List.isEmpty_iff] at hb
      rw [hb] at hr
      simpa using hr.symm
    refine ⟨by rw [hcalls, hk, hr0]; simp, ?_, ?_⟩
    · intro c hc
      rw [hcalls] at hc
      exact hcl c ((List.dropLast_sublist _).subset hc)
    · intro c hc
      rw [hcalls] at hc
      rw [if_pos hr0]
      exact hcl c (mem_of_getLast_eq hc)
  · rw [if_neg hb] at hcalls
    have hrne : es.length % B ≠ 0 := by
      intro h0
      rw [h0] at hr
      rw [List.isEmpty_iff] at hb
      exact hb (List.length_eq_zero.1 hr)
    refine ⟨?_, ?_, ?_⟩
    · rw [hcalls, if_neg hrne]
      simp [hk]
    · intro c hc
      rw [hcalls, List.dropLast_concat] at hc
      exact hcl c hc
    · intro c hc
      rw [hcalls, List.getLast?_concat] at hc
      have hcb : c = (es.foldl (processEntry B upsertOk) initState).batch :=
        (Option.some_inj.1 hc).symm
      rw [if_neg hrne, hcb, hr]

/-- Three concrete entries, all embedding successfully. -/
def entries3 : List Entry := [⟨"a.jpg", some [1]⟩, ⟨"b.jpg", some [2]⟩, ⟨"c.jpg", some [3]⟩]

/-- Witness for C2: three entries with batch size 2 yield `⌈3/2⌉ = 2` calls. -/
theorem C2_batch_upsert_call_counts_witness :
    1 ≤ 2 ∧ (∀ e ∈ entries3, e.embed.isSome) ∧
      (batch_upsert_embeddings upsertAllOk entries3 2).calls.length = (3 + 2 - 1) / 2 := by
  have h := C2_batch_upsert_call_counts upsertAllOk entries3 2 (by decide)
    (fun _ => rfl) (by decide)
  exact ⟨by decide, by decide, h.1⟩

lemma failNames_eq_nil (l : List Entry) (h : ∀ x ∈ l, x.embed.isSome) :
    failNames l = [] := by
  induction l with
  | nil => rfl
  | cons x l ih =>
    have hx := h x (List.mem_cons_self x l)
    rw [Option.isSome_iff_exists] at hx
    obtain ⟨v, hv⟩ := hx
    simp [failNames, List.filterMap_cons, hv]
    have := ih (fun y hy => h y (List.mem_cons_of_mem x hy))
    simpa [failNames] using this

lemma totalUpserted_run (upsertOk : ℕ → Bool) (hok : ∀ n, upsertOk n = true)
    (es : List Entry) (B : ℕ) :
    totalUpserted (batch_upsert_embeddings upsertOk es B) =
      (successItems es).length := by
  unfold totalUpserted
  rw [← List.length_flatten, run_flatten upsertOk hok es B]

/-- C6: a single embedding failure among the entries is recorded under the
entry's name, the run never aborts (no exception escapes), and the total
number of items upserted equals the count for the other entries — the same
total as the run on the list with the failing entry removed. -/
theorem C6_single_failure_isolated (upsertOk : ℕ → Bool) (l₁ l₂ : List Entry)
    (e : Entry) (B : ℕ) (hok : ∀ n, upsertOk n = true) (he : e.embed = none)
    (hall : ∀ x ∈ l₁ ++ l₂, x.embed.isSome) :
    (batch_upsert_embeddings upsertOk (l₁ ++ e :: l₂) B).failures = [e.name] ∧
    (batch_upsert_embeddings upsertOk (l₁ ++ e :: l₂) B).raised = false ∧
    totalUpserted (batch_upsert_embeddings upsertOk (l₁ ++ e :: l₂) B) =
      totalUpserted (batch_upsert_embeddings upsertOk (l₁ ++ l₂) B) ∧
    totalUpserted (batch_upsert_embeddings upsertOk (l₁ ++ e :: l₂) B) =
      l₁.length + l₂.length := by
  have h1 : ∀ x ∈ l₁, x.embed.isSome :=
    fun x hx => hall x (List.mem_append_left _ hx)
  have h2 : ∀ x ∈ l₂, x.embed.isSome :=
    fun x hx => hall x (List.mem_append_right _ hx)
  have hsucc : successItems (l₁ ++ e :: l₂) = successItems (l₁ ++ l₂) := by
    simp [successItems, List.filterMap_append, List.filterMap_cons, he]
  refine ⟨?_, run_raised upsertOk hok _ B, ?_, ?_⟩
  · rw [run_failures upsertOk hok _ B]
    have : failNames (l₁ ++ e :: l₂) = failNames l₁ ++ e.name :: failNames l₂ := by
      simp [failNames, List.filterMap_append, List.filterMap_cons, he]
    rw [this, failNames_eq_nil l₁ h1, failNames_eq_nil l₂ h2]
    rfl
  · rw [totalUpserted_run upsertOk hok _ B, totalUpserted_run upsertOk hok _ B, hsucc]
  · rw [totalUpserted_run upsertOk hok _ B, hsucc,
      successItems_length _ hall, List.length_append]

/-- A failing middle entry for the C6 witness. -/
def entryBad : Entry := ⟨"bad.jpg", none⟩

/-- Witness for C6: one decode failure between two good entries, batch size 2. -/
theorem C6_single_failure_isolated_witness :
    entryBad.embed = none ∧
      (batch_upsert_embeddings upsertAllOk
        ([⟨"a.jpg", some [1]⟩] ++ entryBad :: [⟨"c.jpg", some [3]⟩]) 2).failures =
        [entryBad.name] := by
  have h := C6_single_failure_isolated upsertAllOk [⟨"a.jpg", some [1]⟩]
    [⟨"c.jpg", some [3]⟩] entryBad 2 (fun _ => rfl) rfl (by decide)
  exact ⟨rfl, h.1⟩

/-- How many upsert calls of the run include a given item. -/
def inclusionCount (st : IngestState) (it : Item) : ℕ :=
  st.calls.countP (fun c => decide (it ∈ c))

/-- An upsert oracle whose first call fails and later calls succeed. -/
def upsertFailFirst : ℕ → Bool := fun n => decide (0 < n)

/-- Two concrete entries that both embed successfully. -/
def entriesC7 : List Entry := [⟨"a.jpg", some [1]⟩, ⟨"b.jpg", some [2]⟩]

/-- The item built from the first entry of `entriesC7`. -/
def itemA : Item := ⟨"a.jpg", [1]⟩

/-- Counterexample to C7: with batch size 1, if the first upsert call fails
(the exception is caught, the buffer is not cleared), the first item is
resent: it is included in two upsert calls, not exactly one. -/
theorem C7_counterexample_item_sent_twice :
    itemA ∈ successItems entriesC7 ∧
      inclusionCount (batch_upsert_embeddings upsertFailFirst entriesC7 1) itemA = 2 := by
  constructor
  · decide
  · decide

lemma countP_flatten_nodup {α : Type} [DecidableEq α] (x : α) :
    ∀ L : List (List α), L.flatten.Nodup → x ∈ L.flatten →
      L.countP (fun c => decide (x ∈ c)) = 1 := by
  intro L
  induction L with
  | nil => intro _ hx; simp at hx
  | cons c L ih =>
    intro hnd hx
    rw [List.flatten_cons] at hnd hx
    rw [List.nodup_append] at hnd
    obtain ⟨hc, hL, hdisj⟩ := hnd
    rw [List.countP_cons]
    rcases List.mem_append.1 hx with hxc | hxL
    · have hzero : L.countP (fun c => decide (x ∈ c)) = 0 := by
        rw [List.countP_eq_zero]
        intro c' hc'
        simp only [decide_eq_true_eq]
        intro hxc'
        exact hdisj hxc (List.mem_flatten.2 ⟨c', hc', hxc'⟩)
      rw [hzero]
      simp [hxc]
    · have hxnc : x ∉ c := fun hxc => hdisj hxc hxL
      rw [ih hL hxL]
      simp [hxnc]

lemma successItems_ids_sublist (es : List Entry) :
    ((successItems es).map Item.id).Sublist (es.map Entry.name) := by
  induction es with
  | nil => simp [successItems]
  | cons e es ih =>
    cases he : e.embed with
    | none =>
      simp only [successItems, List.filterMap_cons, he, List.map_cons]
      exact List.Sublist.cons _ ih
    | some v =>
      simp only [successItems, List.filterMap_cons, he, Option.map_some, List.map_cons]
      exact List.Sublist.cons₂ _ ih

lemma successItems_nodup (es : List Entry) (h : (es.map Entry.name).Nodup) :
    (successItems es).Nodup :=
  List.Nodup.of_map Item.id (List.Nodup.sublist (successItems_ids_sublist es) h)

/-- C7 (amended): in runs whose upsert calls all succeed, every successfully
embedded item (with entry names distinct, as identifiers are within a
namespace) is included in exactly one upsert call. When an upsert call fails,
its items are retained in the buffer and are resent in a later call, so the
guarantee is at-least-once, not exactly-once. -/
theorem C7_amended_exactly_once (upsertOk : ℕ → Bool) (es : List Entry) (B : ℕ)
    (hok : ∀ n, upsertOk n = true) (hnd : (es.map Entry.name).Nodup) :
    ∀ it ∈ successItems es,
      inclusionCount (batch_upsert_embeddings upsertOk es B) it = 1 := by
  intro it hit
  have hflat := run_flatten upsertOk hok es B
  unfold inclusionCount
  apply countP_flatten_nodup
  · rw [hflat]
    exact successItems_nodup es hnd
  · rw [hflat]
    exact hit

/-- Witness for the amended C7: with all upserts succeeding, the first item of
`entriesC7` is included in exactly one call. -/
theorem C7_amended_exactly_once_witness :
    inclusionCount (batch_upsert_embeddings upsertAllOk entriesC7 1) itemA = 1 :=
  C7_amended_exactly_once upsertAllOk entriesC7 1 (fun _ => rfl) (by decide)
    itemA (by decide)

/-! ## Identification key: `get_card_id` -/

/-- One match of a Pinecone query result: an identifier and a score. -/
structure QMatch where
  id : String
  score : ℚ

/-- Python's `str.split(sep)` for a one-character separator: splitting never
yields an empty list (`"".split('.') == ['']`). -/
def splitOnChar (sep : Char) : List Char → List (List Char)
  | [] => [[]]
  | c :: cs =>
    match splitOnChar sep cs, decide (c = sep) with
    | r, true => [] :: r
    | [], false => [[c]]
    | g :: gs, false => (c :: g) :: gs

/-- Embedding of `get_card_id(query_results)`:
`query_results.matches[0].id.split('.')[0]` — take the first match's id and
keep the part before the FIRST dot. `split` never returns an empty list, so
the `[0]` never fails; the result is `none` only when there are no matches
(Python would raise an `IndexError`). -/
def get_card_id (query_results : List QMatch) : Option String :=
  query_results.head?.map (fun m => String.mk ((splitOnChar '.' m.id.data).headD []))

/-- C8 (code bug): for the dotted base name "a.b.jpg" the code derives "a",
splitting at the first dot, not "a.b" as stripping only the final extension
(the code's stated intent) would give. -/
theorem C8_get_card_id_splits_at_first_dot :
    get_card_id [⟨"a.b.jpg", 1⟩] = some "a" ∧ ("a" : String) ≠ "a.b" := by
  constructor
  · decide
  · decide

/-! ## Catalog reconciliation: price parsing and `add_card_data_to_csv` -/

/-- Numeric value of a digit string (most significant first). -/
def digitsVal (cs : List Char) : ℕ :=
  cs.foldl (fun n c => 10 * n + (c.toNat - 48)) 0

/-- Parse an unsigned decimal literal (`digits`, `digits.`, `.digits`,
`digits.digits`), the forms Python's `float()` accepts for Scryfall price
strings; anything else (empty string, stray characters, two dots) fails. -/
def parseUFloat (cs : List Char) : Option ℚ :=
  let intPart := cs.takeWhile Char.isDigit
  let rest := cs.dropWhile Char.isDigit
  match rest with
  | [] => if intPart.isEmpty then none else some ((digitsVal intPart : ℕ) : ℚ)
  | '.' :: frac =>
    if frac.all Char.isDigit ∧ (intPart ≠ [] ∨ frac ≠ []) then
      some (((digitsVal intPart : ℕ) : ℚ) +
        ((digitsVal frac : ℕ) : ℚ) / (10 : ℚ) ^ frac.length)
    else none
  | _ => none

/-- Python `float(s)` on a price string, with an optional sign. -/
def pyFloat (s : String) : Option ℚ :=
  match s.data with
  | '-' :: cs => (parseUFloat cs).map Neg.neg
  | '+' :: cs => parseUFloat cs
  | cs => parseUFloat cs

/-- The observed price: `card_data.get('prices', {}).get('usd', '')` followed
by `float(...)`. `none` models a missing `prices.usd` or a JSON `null`
(`float` raises on both) and `some s` the raw price string. -/
def parsePrice (usd : Option String) : Option ℚ := usd.bind pyFloat

/-- The card record resolved from the metadata service (the fields
`add_card_data_to_csv` extracts from `card_data`). -/
structure CardData where
  id : String
  name : String
  mana_cost : String
  cmc : ℚ
  type_line : String
  colors : List String
  color_identity : List String
  set_name : String
  rarity : String
  full_art : Bool
  usd : Option String
deriving DecidableEq

/-- One persisted ledger row of `Output/mtg_catalog.csv`. -/
structure Row where
  id : String
  name : String
  mana_cost : String
  cmc : ℚ
  type_line : String
  colors : List String
  color_identity : List String
  set_name : String
  rarity : String
  full_art : Bool
  price : Option String
  number_owned : ℕ
  total_value : ℚ
deriving DecidableEq

/-- The code's `card_data.get('type_line', '').replace('—', '-')`: Python's
single-character `str.replace` substitutes every occurrence, i.e. maps each
em-dash character to '-'. -/
def replaceEmDash (s : String) : String :=
  String.mk (s.data.map (fun c => if c = '—' then '-' else c))

/-- The new row appended when no row with the card's id exists:
`number_owned = 1`, `total_value = float(price)`, descriptive fields taken
from the card record (the type line goes through the code's
`replace('—', '-')`), `price` holding the observed price string. -/
def newRowOf (card : CardData) (p : ℚ) : Row :=
  { id := card.id, name := card.name, mana_cost := card.mana_cost,
    cmc := card.cmc, type_line := replaceEmDash card.type_line,
    colors := card.colors, color_identity := card.color_identity,
    set_name := card.set_name, rarity := card.rarity,
    full_art := card.full_art, price := card.usd,
    number_owned := 1, total_value := p }

/-- The in-place update of a found row:
`row['number_owned'] = int(row['number_owned']) + 1;`
`row['total_value'] = row['number_owned'] * float(price)`.
The stored `price` field is NOT touched by the code. -/
def bumpRow (r : Row) (p : ℚ) : Row :=
  { r with number_owned := r.number_owned + 1,
           total_value := ((r.number_owned + 1 : ℕ) : ℚ) * p }

/-- The `for row in rows: if row['id'] == id: ...; break` loop with its
`row_exists` flag: update the first row whose id matches, leave the rest
unchanged; `none` when no row matches. -/
def updateFirstMatch (card_id : String) (p : ℚ) : List Row → Option (List Row)
  | [] => none
  | r :: rs =>
    if r.id = card_id then some (bumpRow r p :: rs)
    else
      match updateFirstMatch card_id p rs with
      | some rs' => some (r :: rs')
      | none => none

/-- The errors one reconciliation call can raise. -/
inductive RecErr where
  | priceUnavailable
deriving DecidableEq

/-- Embedding of `add_card_data_to_csv(file_path, top_result_id)` acting on
the in-memory table read from the file: on an unparsable price, `float(price)`
raises in whichever branch runs (modelled as one up-front check, observably
identical since both branches evaluate `float(price)` before any write);
otherwise the first matching row is bumped, or a new row is appended. -/
def add_card_data_to_csv (rows : List Row) (card : CardData) :
    Except RecErr (List Row) :=
  match parsePrice card.usd with
  | none => Except.error RecErr.priceUnavailable
  | some p =>
    match updateFirstMatch card.id p rows with
    | some rows' => Except.ok rows'
    | none => Except.ok (rows ++ [newRowOf card p])

/-- The persisted file after one reconciliation call: the full-table rewrite
happens only at the end of the function, so if the call raises, the file on
disk keeps its previous contents. -/
def persistReconcile (file : List Row) (card : CardData) : List Row :=
  match add_card_data_to_csv file card with
  | Except.ok rows => rows
  | Except.error _ => file

/-- The spec's row invariant, read with the row's STORED price field:
`total_value == number_owned * price`. -/
def rowInvHolds (r : Row) : Prop :=
  ∃ q, parsePrice r.price = some q ∧ r.total_value = (r.number_owned : ℚ) * q

/-- C9: when the resolved record's price is absent or non-numeric, the
reconciliation errors out and no merged table is produced — neither branch
creates or updates a row with a substitute value. -/
theorem C9_unparsable_price_rejects_merge (rows : List Row) (card : CardData)
    (h : parsePrice card.usd = none) :
    add_card_data_to_csv rows card = Except.error RecErr.priceUnavailable := by
  unfold add_card_data_to_csv
  rw [h]

/-- A concrete card whose price field is a non-numeric string. -/
def cardNoPrice : CardData :=
  { id := "x", name := "X", mana_cost := "", cmc := 0, type_line := "T",
    colors := [], color_identity := [], set_name := "S", rarity := "rare",
    full_art := false, usd := some "abc" }

/-- A concrete ledger row with id "x" (stored price "1.00", one owned). -/
def rowX : Row :=
  { id := "x", name := "X", mana_cost := "", cmc := 0, type_line := "T",
    colors := [], color_identity := [], set_name := "S", rarity := "rare",
    full_art := false, price := some "1.00", number_owned := 1,
    total_value := 1 }

/-- Witness for C9: the non-numeric price "abc" is rejected, with a matching
row present (the found branch). -/
theorem C9_unparsable_price_rejects_merge_witness :
    parsePrice cardNoPrice.usd = none ∧
      add_card_data_to_csv [rowX] cardNoPrice =
        Except.error RecErr.priceUnavailable := by
  refine ⟨rfl, C9_unparsable_price_rejects_merge [rowX] cardNoPrice rfl⟩

/-- C10: if the price cannot be parsed, the persisted ledger file is exactly
what it was before the call — the error propagates before the full-table
rewrite, so no partial state reaches storage. -/
theorem C10_failed_parse_leaves_file_unchanged (file : List Row)
    (card : CardData) (h : parsePrice card.usd = none) :
    persistReconcile file card = file := by
  unfold persistReconcile add_card_data_to_csv
  rw [h]

/-- Witness for C10: with a matching row on file (the branch whose in-memory
dict is mutated before `float(price)` raises), the file is unchanged. -/
theorem C10_failed_parse_leaves_file_unchanged_witness :
    parsePrice cardNoPrice.usd = none ∧
      persistReconcile [rowX] cardNoPrice = [rowX] :=
  ⟨rfl, C10_failed_parse_leaves_file_unchanged [rowX] cardNoPrice rfl⟩

lemma updateFirstMatch_not_found (cid : String) (p : ℚ) :
    ∀ rows : List Row, (∀ x ∈ rows, x.id ≠ cid) →
      updateFirstMatch cid p rows = none := by
  intro rows
  induction rows with
  | nil => intro _; rfl
  | cons r rs ih =>
    intro h
    have hr : ¬ r.id = cid := h r (List.mem_cons_self r rs)
    have hrec := ih (fun x hx => h x (List.mem_cons_of_mem r hx))
    simp [updateFirstMatch, hr, hrec]

lemma updateFirstMatch_found (cid : String) (p : ℚ) (r : Row) (hr : r.id = cid) :
    ∀ pre : List Row, (∀ x ∈ pre, x.id ≠ cid) → ∀ post : List Row,
      updateFirstMatch cid p (pre ++ r :: post) =
        some (pre ++ bumpRow r p :: post) := by
  intro pre
  induction pre with
  | nil =>
    intro _ post
    simp [updateFirstMatch, hr]
  | cons x pre ih =>
    intro h post
    have hx : ¬ x.id = cid := h x (List.mem_cons_self x pre)
    have hrec := ih (fun y hy => h y (List.mem_cons_of_mem x hy)) post
    simp [updateFirstMatch, hx, hrec]

lemma updateFirstMatch_inv (cid : String) (p : ℚ) :
    ∀ (rows u : List Row), updateFirstMatch cid p rows = some u →
      ∃ pre r post, rows = pre ++ r :: post ∧ r.id = cid ∧
        u = pre ++ bumpRow r p :: post := by
  intro rows
  induction rows with
  | nil => intro u h; simp [updateFirstMatch] at h
  | cons r rs ih =>
    intro u h
    by_cases hr : r.id = cid
    · rw [updateFirstMatch, if_pos hr] at h
      refine ⟨[], r, rs, by simp, hr, ?_⟩
      simpa using h.symm
    · rw [updateFirstMatch, if_neg hr] at h
      cases hrec : updateFirstMatch cid p rs with
      | none => rw [hrec] at h; exact absurd h (by simp)
      | some u' =>
        rw [hrec] at h
        obtain ⟨pre, r', post, h1, h2, h3⟩ := ih u' hrec
        refine ⟨r :: pre, r', post, by rw [h1]; simp, h2, ?_⟩
        have hu : u = r :: u' := by simpa using h.symm
        rw [hu, h3]
        simp

/-- A ledger row with id "x", stored price "1", one owned, total value 1
(the stored-price invariant holds: 1 = 1 × 1). -/
def rowX1 : Row :=
  { id := "x", name := "X", mana_cost := "", cmc := 0, type_line := "T",
    colors := [], color_identity := [], set_name := "S", rarity := "rare",
    full_art := false, price := some "1", number_owned := 1, total_value := 1 }

/-- A resolved card record with id "x" whose newly observed price is "2". -/
def cardP2 : CardData :=
  { id := "x", name := "X", mana_cost := "", cmc := 0, type_line := "T",
    colors := [], color_identity := [], set_name := "S", rarity := "rare",
    full_art := false, usd := some "2" }

/-- What the found-branch reconciliation of `rowX1` with observed price 2
produces: `number_owned = 2`, `total_value = 4`, stored price still "1". -/
def rowX1bumped : Row := { rowX1 with number_owned := 2, total_value := 4 }

lemma add_card_parse_some (rows : List Row) (card : CardData) (p : ℚ)
    (hp : parsePrice card.usd = some p) :
    add_card_data_to_csv rows card =
      match updateFirstMatch card.id p rows with
      | some rows' => Except.ok rows'
      | none => Except.ok (rows ++ [newRowOf card p]) := by
  unfold add_card_data_to_csv
  rw [hp]

lemma add_card_found (rows : List Row) (card : CardData) (p : ℚ)
    (rows' : List Row) (hp : parsePrice card.usd = some p)
    (hu : updateFirstMatch card.id p rows = some rows') :
    add_card_data_to_csv rows card = Except.ok rows' := by
  rw [add_card_parse_some rows card p hp, hu]

lemma add_card_notfound (rows : List Row) (card : CardData) (p : ℚ)
    (hp : parsePrice card.usd = some p)
    (hu : updateFirstMatch card.id p rows = none) :
    add_card_data_to_csv rows card = Except.ok (rows ++ [newRowOf card p]) := by
  rw [add_card_parse_some rows card p hp, hu]

lemma bumpRow_rowX1 : bumpRow rowX1 2 = rowX1bumped := by
  unfold bumpRow rowX1 rowX1bumped rowX1
  norm_num

lemma add_card_rowX1_cardP2 :
    add_card_data_to_csv [rowX1] cardP2 = Except.ok [rowX1bumped] := by
  have hu : updateFirstMatch cardP2.id 2 [rowX1] = some [bumpRow rowX1 2] :=
    updateFirstMatch_found cardP2.id 2 rowX1 rfl [] (by simp) []
  rw [bumpRow_rowX1] at hu
  exact add_card_found [rowX1] cardP2 2 [rowX1bumped] (by decide) hu

/-- Counterexample to C3: reconciling a row whose stored price is "1" with a
newly observed price "2" yields `number_owned = 2`, `total_value = 4`, but
the stored price field still "1", so `total_value ≠ number_owned * price`
(4 ≠ 2 × 1) for the reconciled row. -/
theorem C3_counterexample_stale_stored_price :
    add_card_data_to_csv [rowX1] cardP2 = Except.ok [rowX1bumped] ∧
      ¬ rowInvHolds rowX1bumped := by
  refine ⟨add_card_rowX1_cardP2, ?_⟩
  rintro ⟨q, hq, he⟩
  have h1 : parsePrice rowX1bumped.price = some 1 := by decide
  rw [h1] at hq
  have hq1 : q = 1 := (Option.some_inj.1 hq).symm
  rw [hq1] at he
  have h2 : rowX1bumped.total_value = 4 := rfl
  have h3 : rowX1bumped.number_owned = 2 := rfl
  rw [h2, h3] at he
  norm_num at he

/-- C3 (amended): after a successful reconciliation with observed price `p`,
the ledger decomposes as `pre ++ touched :: post` where the reconciled row
`touched` has the card's id and satisfies
`total_value = number_owned * p` with the OBSERVED price, and all other rows
still satisfy the stored-price invariant they satisfied before. The invariant
with the reconciled row's STORED price holds only when that stored price
parses to the observed price (always, in the new-row branch, which stores the
observed price string). -/
theorem C3_amended_invariant_observed_price (rows : List Row) (card : CardData)
    (rows' : List Row) (p : ℚ) (hp : parsePrice card.usd = some p)
    (hok : add_card_data_to_csv rows card = Except.ok rows')
    (hinv : ∀ r ∈ rows, rowInvHolds r) :
    ∃ pre touched post,
      rows' = pre ++ touched :: post ∧
      touched.id = card.id ∧
      touched.total_value = (touched.number_owned : ℚ) * p ∧
      (∀ r ∈ pre, rowInvHolds r) ∧ (∀ r ∈ post, rowInvHolds r) := by
  rw [add_card_parse_some rows card p hp] at hok
  cases hu : updateFirstMatch card.id p rows with
  | none =>
    rw [hu] at hok
    have hok2 : Except.ok (rows ++ [newRowOf card p]) =
        (Except.ok rows' : Except RecErr (List Row)) := hok
    have hrows' : rows' = rows ++ [newRowOf card p] := (Except.ok.inj hok2).symm
    refine ⟨rows, newRowOf card p, [], by simpa using hrows', rfl, ?_, hinv, by simp⟩
    show p = ((1 : ℕ) : ℚ) * p
    norm_num
  | some u =>
    rw [hu] at hok
    have hok2 : Except.ok u = (Except.ok rows' : Except RecErr (List Row)) := hok
    have hu' : rows' = u := (Except.ok.inj hok2).symm
    obtain ⟨pre, r, post, h1, h2, h3⟩ := updateFirstMatch_inv card.id p rows u hu
    refine ⟨pre, bumpRow r p, post, by rw [hu', h3], h2, rfl, ?_, ?_⟩
    · intro x hx
      exact hinv x (by rw [h1]; exact List.mem_append_left _ hx)
    · intro x hx
      exact hinv x (by rw [h1]; exact List.mem_append_right _ (List.mem_cons_of_mem r hx))

/-- Witness for the amended C3 at a concrete found-branch reconciliation. -/
theorem C3_amended_invariant_observed_price_witness :
    parsePrice cardP2.usd = some 2 ∧
      ∃ pre touched post,
        ([rowX1bumped] : List Row) = pre ++ touched :: post ∧
        touched.id = cardP2.id ∧
        touched.total_value = (touched.number_owned : ℚ) * 2 ∧
        (∀ r ∈ pre, rowInvHolds r) ∧ (∀ r ∈ post, rowInvHolds r) := by
  constructor
  · decide
  · apply C3_amended_invariant_observed_price [rowX1] cardP2 [rowX1bumped] 2
      (by decide) add_card_rowX1_cardP2
    intro r hr
    have hrx : r = rowX1 := by simpa using hr
    rw [hrx]
    refine ⟨1, by decide, ?_⟩
    have h2 : rowX1.total_value = 1 := rfl
    have h3 : rowX1.number_owned = 1 := rfl
    rw [h2, h3]
    norm_num

/-- Counterexample to C4: reconciling the existing row `rowX1` (stored price
"1") with the newly observed price "2" leaves the stored price field at "1";
it is NOT overwritten with the latest observed value. -/
theorem C4_counterexample_price_not_overwritten :
    add_card_data_to_csv [rowX1] cardP2 = Except.ok [rowX1bumped] ∧
      cardP2.usd = some "2" ∧ rowX1bumped.price = some "1" ∧
      rowX1bumped.price ≠ cardP2.usd :=
  ⟨add_card_rowX1_cardP2, rfl, rfl, by decide⟩

/-- C4 (amended): reconciling an identifier whose row already exists bumps
`number_owned` by 1 and recomputes `total_value` as the new `number_owned`
times the newly observed price, but leaves the stored `price` field
unchanged (it is not refreshed to the observed value). -/
theorem C4_amended_existing_row_update (pre post : List Row) (r : Row)
    (card : CardData) (p : ℚ) (hp : parsePrice card.usd = some p)
    (hpre : ∀ x ∈ pre, x.id ≠ card.id) (hr : r.id = card.id) :
    add_card_data_to_csv (pre ++ r :: post) card =
      Except.ok (pre ++ bumpRow r p :: post) ∧
    (bumpRow r p).number_owned = r.number_owned + 1 ∧
    (bumpRow r p).total_value = ((r.number_owned + 1 : ℕ) : ℚ) * p ∧
    (bumpRow r p).price = r.price :=
  ⟨add_card_found _ card p _ hp (updateFirstMatch_found card.id p r hr pre hpre post),
    rfl, rfl, rfl⟩

/-- Witness for the amended C4 at the concrete found-branch reconciliation. -/
theorem C4_amended_existing_row_update_witness :
    parsePrice cardP2.usd = some 2 ∧ rowX1.id = cardP2.id ∧
      add_card_data_to_csv ([] ++ rowX1 :: []) cardP2 =
        Except.ok ([] ++ bumpRow rowX1 2 :: []) ∧
      (bumpRow rowX1 2).price = rowX1.price := by
  have h := C4_amended_existing_row_update [] [] rowX1 cardP2 2 (by decide)
    (by simp) rfl
  exact ⟨by decide, rfl, h.1, h.2.2.2⟩

/-- The reconciled row after the second sighting: two owned, twice the price. -/
def secondRowOf (card : CardData) (p : ℚ) : Row :=
  { newRowOf card p with number_owned := 2, total_value := 2 * p }

/-- A resolved card record whose type line contains an em-dash (the normal
case in this repository — its own sample output shows
"Artifact — Equipment"). -/
def cardEmDash : CardData :=
  { id := "y", name := "Shuko", mana_cost := "", cmc := 1,
    type_line := "Artifact — Equipment", colors := [], color_identity := [],
    set_name := "Betrayers of Kamigawa", rarity := "uncommon",
    full_art := false, usd := some "2" }

/-- Counterexample to C5: the row created for a card whose type line is
"Artifact — Equipment" stores "Artifact - Equipment" — the type_line field is
NOT a copy of the resolved record's field. -/
theorem C5_counterexample_type_line_not_copied :
    add_card_data_to_csv [] cardEmDash = Except.ok [newRowOf cardEmDash 2] ∧
      (newRowOf cardEmDash 2).type_line = "Artifact - Equipment" ∧
      cardEmDash.type_line = "Artifact — Equipment" ∧
      (newRowOf cardEmDash 2).type_line ≠ cardEmDash.type_line := by
  refine ⟨?_, by decide, rfl, by decide⟩
  have h := add_card_notfound [] cardEmDash 2 (by decide) rfl
  simpa using h

/-- C5 (amended): reconciling an identifier absent from the ledger appends
exactly one row with `number_owned = 1`, `total_value = price`, and the
descriptive fields taken from the card record — copied verbatim except the
type line, which is stored with every em-dash replaced by '-'; reconciling
the same identifier again with the same observed price updates that row in
place to `number_owned = 2`, `total_value = 2 × price` without creating a
second row. -/
theorem C5_first_and_second_reconcile (rows : List Row) (card : CardData)
    (p : ℚ) (hp : parsePrice card.usd = some p)
    (habs : ∀ x ∈ rows, x.id ≠ card.id) :
    add_card_data_to_csv rows card = Except.ok (rows ++ [newRowOf card p]) ∧
    (newRowOf card p).id = card.id ∧
    (newRowOf card p).number_owned = 1 ∧
    (newRowOf card p).total_value = p ∧
    (newRowOf card p).name = card.name ∧
    (newRowOf card p).mana_cost = card.mana_cost ∧
    (newRowOf card p).cmc = card.cmc ∧
    (newRowOf card p).type_line = replaceEmDash card.type_line ∧
    (newRowOf card p).colors = card.colors ∧
    (newRowOf card p).color_identity = card.color_identity ∧
    (newRowOf card p).set_name = card.set_name ∧
    (newRowOf card p).rarity = card.rarity ∧
    (newRowOf card p).full_art = card.full_art ∧
    (newRowOf card p).price = card.usd ∧
    (rows ++ [newRowOf card p]).length = rows.length + 1 ∧
    add_card_data_to_csv (rows ++ [newRowOf card p]) card =
      Except.ok (rows ++ [secondRowOf card p]) ∧
    (rows ++ [secondRowOf card p]).length = rows.length + 1 := by
  have h1 : add_card_data_to_csv rows card =
      Except.ok (rows ++ [newRowOf card p]) :=
    add_card_notfound rows card p hp (updateFirstMatch_not_found card.id p rows habs)
  have hb : bumpRow (newRowOf card p) p = secondRowOf card p := by
    unfold bumpRow secondRowOf
    have hn : (newRowOf card p).number_owned = 1 := rfl
    rw [hn]
    norm_num
  have h2 : add_card_data_to_csv (rows ++ [newRowOf card p]) card =
      Except.ok (rows ++ [secondRowOf card p]) := by
    have hu := updateFirstMatch_found card.id p (newRowOf card p) rfl rows habs []
    rw [hb] at hu
    exact add_card_found _ card p _ hp hu
  refine ⟨h1, rfl, rfl, rfl, rfl, rfl, rfl, rfl, rfl, rfl, rfl, rfl, rfl, rfl,
    by simp, h2, by simp⟩

/-- Witness for C5: an empty ledger, the card with observed price "2". -/
theorem C5_first_and_second_reconcile_witness :
    parsePrice cardP2.usd = some 2 ∧
      add_card_data_to_csv [] cardP2 = Except.ok [newRowOf cardP2 2] ∧
      (newRowOf cardP2 2).number_owned = 1 ∧
      (newRowOf cardP2 2).total_value = 2 ∧
      add_card_data_to_csv [newRowOf cardP2 2] cardP2 =
        Except.ok [secondRowOf cardP2 2] := by
  have h := C5_first_and_second_reconcile [] cardP2 2 (by decide) (by simp)
  refine ⟨by decide, ?_, h.2.2.1, h.2.2.2.1, ?_⟩
  · simpa using h.1
  · have := h.2.2.2.2.2.2.2.2.2.2.2.2.2.2.2.1
    simpa using this

end MtG
